import Mathlib

/-!
# libmultiprocess `src/mp/util.cpp`: a shallow embedding

The embedding covers `LogEscape`, `MaxFd`, `SpawnProcess`, `ExecProcess` and
`WaitProcess`.  Strings are lists of characters, bytes are numbers below 256,
and the results of the system calls a run makes are given by an explicit
record, so that every function is a total, computable Lean function.
-/

namespace mp

/-! ## LogEscape -/

/-- One byte of a piece of a `kj::StringTree`. -/
abbrev Byte := Fin 256

/-- The value of a `char` object holding the byte `b`.  Whether plain `char`
is signed is fixed by the platform ABI (signed on x86 and x86-64 Linux and on
macOS, unsigned on ARM Linux), so it is a parameter of the embedding. -/
def charValue (charSigned : Bool) (b : Byte) : Int :=
  if charSigned && decide (128 ≤ b.val) then (b.val : Int) - 256 else (b.val : Int)

/-- Conversion of an `int` argument to the `unsigned int` that `%x` prints. -/
def toUnsigned (v : Int) : Nat := (v % 4294967296).toNat

/-- The text produced by the conversion `%02x`: lowercase hexadecimal digits,
zero-padded to a minimum width of two. -/
def format02x (u : Nat) : List Char :=
  let digits := Nat.toDigits 16 u
  List.replicate (2 - digits.length) '0' ++ digits

/-- The C string left in a buffer of `size` bytes by `snprintf`: at most
`size - 1` characters of the formatted text, then the terminator. -/
def snprintf (size : Nat) (formatted : List Char) : List Char :=
  formatted.take (size - 1)

/-- The buffer `escape` after `snprintf(escape, 4, "\\%02x", c)`; the `char`
argument reaches `snprintf` promoted to `int`. -/
def escape (c : Int) : List Char :=
  snprintf 4 ('\\' :: format02x (toUnsigned c))

/-- The characters appended to `result` by one iteration of the loop over a
piece, before the size check (lines 57-65). -/
def rendered (charSigned : Bool) (b : Byte) : List Char :=
  let c := charValue charSigned b
  if 'c' = '\\' then ['\\', '\\']
  else if c < 0x20 ∨ c > 0x7e then escape c
  else [Char.ofNat b.val]

def MAX_SIZE : Nat := 1000

/-- The loop `for (char c : piece)` of the visitor (lines 56-70), started with
the accumulated `result`. -/
def pieceLoop (charSigned : Bool) : List Char → List Byte → List Char
  | result, [] => result
  | result, c :: rest =>
    let result := result ++ rendered charSigned c
    if result.length > MAX_SIZE then result ++ ['.', '.', '.']
    else pieceLoop charSigned result rest

/-- The call `string.visit(...)`: the lambda of lines 54-71 applied to every
piece in order.  A `kj::StringTree` is represented by the sequence of pieces
that `visit` passes to the lambda. -/
def visit (charSigned : Bool) : List Char → List (List Byte) → List Char
  | result, [] => result
  | result, piece :: rest =>
    visit charSigned
      (if result.length > MAX_SIZE then result else pieceLoop charSigned result piece) rest

def LogEscape (charSigned : Bool) (string : List (List Byte)) : List Char :=
  visit charSigned [] string

/-- Printable ASCII. -/
def printable (ch : Char) : Prop := 0x20 ≤ ch.toNat ∧ ch.toNat ≤ 0x7e

instance (ch : Char) : Decidable (printable ch) := by
  unfold printable; infer_instance

/-- The escaped content of a byte sequence with no truncation applied: what
the loop appends for each byte, concatenated in order. -/
def escapeAll (charSigned : Bool) : List Byte → List Char
  | [] => []
  | b :: rest => rendered charSigned b ++ escapeAll charSigned rest

/-! ## MaxFd, SpawnProcess, ExecProcess, WaitProcess

A run of one of these functions is followed inside one process.  The results
of the system calls it makes are given, and the run yields an outcome, the
open descriptors of the process and the sequence of calls made. -/

/-- What `execvp` does: it replaces the process image and does not return, or
it fails, sets `errno` and returns -1. -/
inductive ExecvpResult
  | replaced
  | failed (errno : Int)
  deriving DecidableEq

/-- The value `execvp` returns, when it returns. -/
def ExecvpResult.returnValue : ExecvpResult → Option Int
  | .replaced => none
  | .failed _ => some (-1)

/-- The results of the system calls of one run of `SpawnProcess`, seen from the
process that the run follows (after `fork`, the parent when `fork` is not 0 and
the child when it is 0). -/
structure Os where
  /-- Descriptors open in the process when `SpawnProcess` is called. -/
  openFds : List Int
  /-- The two descriptors stored in `fds` when `socketpair` returns 0, or
  `errno` when it does not. -/
  socketpair : Except Int (Int × Int)
  /-- The value returned by `fork`: -1 on failure, 0 in the child, the id of
  the child in the parent. -/
  fork : Int
  /-- The checked `close` of line 83: `none` when it returns 0, `errno` when it
  does not. -/
  close : Option Int
  /-- The soft limit `rlim_cur` when `getrlimit` returns 0, `none` when it
  fails. -/
  getrlimit : Option Nat
  execvp : ExecvpResult

/-- What a call `fd_to_args(fd)` of the callback does: it returns an argument
vector, or it throws an exception. -/
inductive CallbackResult
  | returned (args : List String)
  | threw
  deriving DecidableEq

/-- The calls a run makes that the properties below speak about. -/
inductive Event
  | close (fd : Int)
  | callback (fd : Int)
  | execvp (args : List String)
  | perror
  deriving DecidableEq

/-- How a run ends. -/
inductive Outcome
  /-- Normal return to the caller with a value. -/
  | returned (value : Int)
  /-- A `std::system_error(errno, std::system_category())` propagates to the caller. -/
  | threw (errno : Int)
  /-- The call of `execvp` succeeded: the process now runs the new program. -/
  | replaced (args : List String)
  /-- The process ended in `_exit(status)`. -/
  | exited (status : Int)
  /-- The exception thrown by the callback propagates to the caller. -/
  | propagated
  /-- The function `execvp` was called with a null pointer as the file name,
  which it does not allow: the behaviour is undefined (with glibc the process is
  killed by SIGSEGV). -/
  | undefined
  deriving DecidableEq

/-- The descriptor table of the process and the calls made so far, oldest
first. -/
structure Process where
  openFds : List Int
  trace : List Event

/-- A call of `close(fd)` that returns 0, and also one whose result is not
looked at: afterwards `fd` is not open. -/
def Process.close (p : Process) (fd : Int) : Process :=
  { openFds := p.openFds.filter (fun x => decide (x ≠ fd)),
    trace := p.trace ++ [Event.close fd] }

/-- Highest possible file descriptor (lines 23-31).  The subtraction is done
in the unsigned 64-bit type of `rlim_cur`. -/
def MaxFd (getrlimit : Option Nat) : Nat :=
  match getrlimit with
  | some rlim_cur => (rlim_cur + 18446744073709551616 - 1) % 18446744073709551616
  | none => 1023

/-- Conversion of a `size_t` to `int` in `int maxFd = MaxFd()`. -/
def toInt (n : Nat) : Int :=
  if n % 4294967296 < 2147483648 then ((n % 4294967296 : Nat) : Int)
  else ((n % 4294967296 : Nat) : Int) - 4294967296

/-- The loop body of lines 89-91 run `n` times, for `fd`, `fd + 1`, ... -/
def closeLoop (keep : Int) : Nat → Int → Process → Process
  | 0, _, p => p
  | n + 1, fd, p => closeLoop keep n (fd + 1) (if fd ≠ keep then p.close fd else p)

/-- The loop `for (int fd = 3; fd < maxFd; ++fd)` of lines 88-92: its body
runs for `fd = 3, ..., maxFd - 1`, that is `maxFd - 3` times, and not at all
when `maxFd` is at most 3. -/
def sanitize (keep maxFd : Int) (p : Process) : Process :=
  closeLoop keep (maxFd - 3).toNat 3 p

/-- Lines 98-109.  For an empty `args` the vector `argv` holds the null pointer
alone, so `argv[0]`, the file name passed to `execvp`, is null.  The first
component is `none` when `ExecProcess` returns to its caller, which takes
`execvp` returning 0. -/
def ExecProcess (os : Os) (args : List String) (p : Process) : Option Outcome × Process :=
  let p : Process := { p with trace := p.trace ++ [Event.execvp args] }
  match args with
  | [] => (some Outcome.undefined, p)
  | _ :: _ =>
    match os.execvp.returnValue with
    | none => (some (Outcome.replaced args), p)
    | some r =>
      if r ≠ 0 then (some (Outcome.exited 1), { p with trace := p.trace ++ [Event.perror] })
      else (none, p)

/-- The end of a run of `SpawnProcess`: outcome, value of the variable that
the reference `pid` is bound to, and the process. -/
structure Run where
  outcome : Outcome
  pid : Int
  process : Process

/-- Lines 75-96.  `pid` is the value of the caller's variable before the
call. -/
def SpawnProcess (os : Os) (pid : Int) (fd_to_args : Int → CallbackResult) : Run :=
  match os.socketpair with
  | .error errno => ⟨Outcome.threw errno, pid, ⟨os.openFds, []⟩⟩
  | .ok (fds0, fds1) =>
    let p : Process := ⟨fds0 :: fds1 :: os.openFds, []⟩
    let pid := os.fork
    let fd := if pid ≠ 0 then fds0 else fds1
    match os.close with
    | some errno => ⟨Outcome.threw errno, pid, { p with trace := [Event.close fd] }⟩
    | none =>
      let p := p.close fd
      if pid = 0 then
        let maxFd := toInt (MaxFd os.getrlimit)
        let p := sanitize fds0 maxFd p
        let p : Process := { p with trace := p.trace ++ [Event.callback fds0] }
        match fd_to_args fds0 with
        | .threw => ⟨Outcome.propagated, pid, p⟩
        | .returned args =>
          match ExecProcess os args p with
          | (some outcome, p) => ⟨outcome, pid, p⟩
          | (none, p) => ⟨Outcome.returned fds1, pid, p⟩
      else ⟨Outcome.returned fds1, pid, p⟩

/-- What `waitpid(pid, &status, 0)` does: it reports a child that changed
state, writing the status of the child through its second argument and
returning the id of the child, or it fails, setting `errno` and returning -1
without writing a status. -/
inductive WaitpidResult
  | changed (child : Int) (status : Int)
  | failed (errno : Int)
  deriving DecidableEq

/-- The variable `status` of line 113 after the call of `waitpid`: it is
declared with no initial value, so it holds a value only when `waitpid` wrote
one. -/
def WaitpidResult.status : WaitpidResult → Option Int
  | .changed _ status => some status
  | .failed _ => none

/-- The process in the child when the callback is invoked: the second endpoint
closed, then the loop run. -/
def childBeforeCallback (os : Os) (fds0 fds1 : Int) : Process :=
  sanitize fds0 (toInt (MaxFd os.getrlimit)) (Process.close ⟨fds0 :: fds1 :: os.openFds, []⟩ fds1)

/-! ## Runs used as examples -/

/-- The call of socketpair yields descriptors 3 and 4, `fork` fails, the close
succeeds. -/
def forkFails : Os :=
  { openFds := [0, 1, 2], socketpair := .ok (3, 4), fork := -1, close := none,
    getrlimit := some 1024, execvp := .replaced }

/-- The child after a `fork`, with the soft limit at 1024 and descriptors 5 and
1023 inherited from the parent. -/
def childWithHighFd : Os :=
  { openFds := [0, 1, 2, 5, 1023], socketpair := .ok (3, 4), fork := 0, close := none,
    getrlimit := some 1024, execvp := .replaced }

/-- The child after a `fork`, when its close of the second endpoint fails with
`errno` 5. -/
def childCloseFails : Os :=
  { openFds := [0, 1, 2], socketpair := .ok (3, 4), fork := 0, close := some 5,
    getrlimit := some 1024, execvp := .replaced }

/-- The parent after a `fork` that returned the child id 4242. -/
def parentRun : Os :=
  { openFds := [0, 1, 2], socketpair := .ok (3, 4), fork := 4242, close := none,
    getrlimit := some 1024, execvp := .replaced }

/-- The child after a `fork`, with a small soft limit, when `execvp` fails. -/
def childExecFails : Os :=
  { openFds := [0, 1, 2, 5, 6], socketpair := .ok (3, 4), fork := 0, close := none,
    getrlimit := some 16, execvp := .failed 2 }

/-! ## Facts about one byte -/

set_option maxRecDepth 1000000 in
theorem rendered_length : ∀ (s : Bool) (b : Byte),
    1 ≤ (rendered s b).length ∧ (rendered s b).length ≤ 3 := by
  decide

set_option maxRecDepth 1000000 in
theorem rendered_printable : ∀ (s : Bool) (b : Byte), ∀ ch ∈ rendered s b, printable ch := by
  decide

set_option maxRecDepth 1000000 in
theorem rendered_of_printable : ∀ (s : Bool) (b : Byte), 0x20 ≤ b.val → b.val ≤ 0x7e →
    rendered s b = [Char.ofNat b.val] := by
  decide

set_option maxRecDepth 1000000 in
theorem rendered_length_of_not_printable : ∀ (s : Bool) (b : Byte),
    (b.val < 0x20 ∨ 0x7e < b.val) → (rendered s b).length = 3 := by
  decide

set_option maxRecDepth 1000000 in
/-- Where plain `char` is unsigned, a byte outside printable ASCII is rendered
as a backslash and the two lowercase hexadecimal digits of its value. -/
theorem rendered_unsigned : ∀ (b : Byte), (b.val < 0x20 ∨ 0x7e < b.val) →
    rendered false b = ['\\', Nat.digitChar (b.val / 16), Nat.digitChar (b.val % 16)] := by
  decide

set_option maxRecDepth 1000000 in
/-- Where plain `char` is signed, the same holds for the bytes below 0x80 that
are outside printable ASCII. -/
theorem rendered_signed_low : ∀ (b : Byte), (b.val < 0x20 ∨ b.val = 0x7f) →
    rendered true b = ['\\', Nat.digitChar (b.val / 16), Nat.digitChar (b.val % 16)] := by
  decide

set_option maxRecDepth 1000000 in
/-- Where plain `char` is signed, every byte from 0x80 up is rendered as the
same three characters: the sign-extended value printed by `%02x` has eight
digits, all but the first two of which `snprintf` cuts off. -/
theorem rendered_signed_high : ∀ (b : Byte), 0x80 ≤ b.val →
    rendered true b = ['\\', 'f', 'f'] := by
  decide

/-! ## Facts about the loops -/

theorem pieceLoop_printable (s : Bool) (piece : List Byte) :
    ∀ result : List Char, (∀ ch ∈ result, printable ch) →
      ∀ ch ∈ pieceLoop s result piece, printable ch := by
  induction piece with
  | nil => intro result h; simpa [pieceLoop] using h
  | cons c rest ih =>
    intro result h
    have hr : ∀ ch ∈ result ++ rendered s c, printable ch := by
      intro ch hch
      rcases List.mem_append.mp hch with h1 | h1
      · exact h ch h1
      · exact rendered_printable s c ch h1
    simp only [pieceLoop]
    split
    · intro ch hch
      rcases List.mem_append.mp hch with h1 | h1
      · exact hr ch h1
      · have : ch = '.' := by simpa using h1
        subst this
        decide
    · exact ih _ hr

theorem visit_printable (s : Bool) (string : List (List Byte)) :
    ∀ result : List Char, (∀ ch ∈ result, printable ch) →
      ∀ ch ∈ visit s result string, printable ch := by
  induction string with
  | nil => intro result h; simpa [visit] using h
  | cons piece rest ih =>
    intro result h
    simp only [visit]
    apply ih
    split
    · exact h
    · exact pieceLoop_printable s piece result h

theorem visit_of_long (s : Bool) (string : List (List Byte)) :
    ∀ result : List Char, MAX_SIZE < result.length → visit s result string = result := by
  induction string with
  | nil => intro result _; rfl
  | cons piece rest ih =>
    intro result h
    simp only [visit, gt_iff_lt, h, if_true]
    exact ih result h

theorem pieceLoop_append (s : Bool) (p q : List Byte) :
    ∀ result : List Char, result.length ≤ MAX_SIZE →
      pieceLoop s result (p ++ q) =
        if MAX_SIZE < (pieceLoop s result p).length then pieceLoop s result p
        else pieceLoop s (pieceLoop s result p) q := by
  induction p with
  | nil =>
    intro result h
    have : ¬ MAX_SIZE < result.length := by omega
    simp [pieceLoop, this]
  | cons c rest ih =>
    intro result h
    simp only [List.cons_append, pieceLoop, gt_iff_lt]
    by_cases hlen : MAX_SIZE < (result ++ rendered s c).length
    · have h2 : MAX_SIZE < (result ++ rendered s c ++ ['.', '.', '.']).length := by
        simp only [List.length_append] at hlen ⊢
        omega
      simp only [hlen, if_true, h2]
    · simp only [hlen, if_false]
      exact ih _ (by omega)

/-- The division of the input into pieces does not matter. -/
theorem visit_eq_pieceLoop (s : Bool) (string : List (List Byte)) :
    ∀ result : List Char, result.length ≤ MAX_SIZE →
      visit s result string = pieceLoop s result string.flatten := by
  induction string with
  | nil => intro result _; rfl
  | cons piece rest ih =>
    intro result h
    have hnot : ¬ MAX_SIZE < result.length := by omega
    simp only [visit, gt_iff_lt, hnot, if_false, List.flatten_cons]
    rw [pieceLoop_append s piece rest.flatten result h]
    by_cases hlen : MAX_SIZE < (pieceLoop s result piece).length
    · simp only [hlen, if_true]
      exact visit_of_long s rest _ hlen
    · simp only [hlen, if_false]
      exact ih _ (by omega)

/-- What the loop over a piece returns, started below the bound: either the
whole escaped content, which then does not exceed the bound, or the content up
to and including the first byte that takes the length past the bound, followed
by the marker. -/
theorem pieceLoop_spec (s : Bool) (bytes : List Byte) :
    ∀ result : List Char, result.length ≤ MAX_SIZE →
      ((result ++ escapeAll s bytes).length ≤ MAX_SIZE ∧
        pieceLoop s result bytes = result ++ escapeAll s bytes) ∨
      (∃ k, k < bytes.length ∧
        (result ++ escapeAll s (bytes.take k)).length ≤ MAX_SIZE ∧
        MAX_SIZE < (result ++ escapeAll s (bytes.take (k + 1))).length ∧
        (result ++ escapeAll s (bytes.take (k + 1))).length ≤ MAX_SIZE + 3 ∧
        pieceLoop s result bytes =
          result ++ escapeAll s (bytes.take (k + 1)) ++ ['.', '.', '.']) := by
  induction bytes with
  | nil =>
    intro result h
    left
    simp [escapeAll, pieceLoop, h]
  | cons c rest ih =>
    intro result h
    have hc := rendered_length s c
    by_cases hlen : MAX_SIZE < (result ++ rendered s c).length
    · right
      refine ⟨0, by simp, by simpa [escapeAll] using h, ?_, ?_, ?_⟩
      · simpa [escapeAll] using hlen
      · simp only [List.take_succ_cons, List.take_zero, escapeAll, List.append_nil,
          List.length_append]
        omega
      · simp only [pieceLoop, gt_iff_lt, hlen, if_true, List.take_succ_cons, List.take_zero,
          escapeAll, List.append_nil, List.append_assoc]
    · have hle : (result ++ rendered s c).length ≤ MAX_SIZE := by omega
      have hstep : pieceLoop s result (c :: rest) = pieceLoop s (result ++ rendered s c) rest := by
        simp only [pieceLoop, gt_iff_lt, hlen, if_false]
      rcases ih (result ++ rendered s c) hle with ⟨h1, h2⟩ | ⟨k, hk, h1, h2, h3, h4⟩
      · left
        simp only [escapeAll, ← List.append_assoc]
        exact ⟨h1, hstep.trans h2⟩
      · right
        refine ⟨k + 1, by simpa using hk, ?_, ?_, ?_, ?_⟩
        · simpa only [List.take_succ_cons, escapeAll, ← List.append_assoc] using h1
        · simpa only [List.take_succ_cons, escapeAll, ← List.append_assoc] using h2
        · simpa only [List.take_succ_cons, escapeAll, ← List.append_assoc] using h3
        · simpa only [List.take_succ_cons, escapeAll, ← List.append_assoc] using hstep.trans h4

theorem escapeAll_of_printable (s : Bool) (bytes : List Byte)
    (h : ∀ b ∈ bytes, 0x20 ≤ b.val ∧ b.val ≤ 0x7e) :
    escapeAll s bytes = bytes.map (fun b => Char.ofNat b.val) := by
  induction bytes with
  | nil => rfl
  | cons c rest ih =>
    have hc := h c (List.mem_cons_self c rest)
    have hrest : ∀ b ∈ rest, 0x20 ≤ b.val ∧ b.val ≤ 0x7e :=
      fun b hb => h b (List.mem_cons_of_mem c hb)
    simp [escapeAll, rendered_of_printable s c hc.1 hc.2, ih hrest]

theorem escapeAll_length_of_not_printable (s : Bool) (bytes : List Byte)
    (h : ∀ b ∈ bytes, b.val < 0x20 ∨ 0x7e < b.val) :
    (escapeAll s bytes).length = 3 * bytes.length := by
  induction bytes with
  | nil => rfl
  | cons c rest ih =>
    have hc := rendered_length_of_not_printable s c (h c (List.mem_cons_self c rest))
    have hrest : ∀ b ∈ rest, b.val < 0x20 ∨ 0x7e < b.val :=
      fun b hb => h b (List.mem_cons_of_mem c hb)
    simp only [escapeAll, List.length_append, List.length_cons, hc, ih hrest]
    omega

/-- An input of 2000 bytes outside printable ASCII, however it is divided into
pieces: the loop stops after byte 334, at 1002 characters, and adds the
marker. -/
theorem LogEscape_of_2000_not_printable (s : Bool) (string : List (List Byte))
    (hbytes : ∀ b ∈ string.flatten, b.val < 0x20 ∨ 0x7e < b.val)
    (hlen : string.flatten.length = 2000) :
    (LogEscape s string).length = 1005 ∧ ['.', '.', '.'] <:+ LogEscape s string := by
  have hvisit : LogEscape s string = pieceLoop s [] string.flatten :=
    visit_eq_pieceLoop s string [] (by simp [MAX_SIZE])
  have htake : ∀ k, (escapeAll s (string.flatten.take k)).length
      = 3 * (string.flatten.take k).length :=
    fun k => escapeAll_length_of_not_printable s _
      (fun b hb => hbytes b (List.mem_of_mem_take hb))
  rcases pieceLoop_spec s string.flatten [] (by simp [MAX_SIZE]) with
    ⟨h1, _⟩ | ⟨k, hk, h1, h2, _, h4⟩
  · rw [List.nil_append, escapeAll_length_of_not_printable s _ hbytes, hlen] at h1
    simp [MAX_SIZE] at h1
  · rw [List.nil_append, htake, List.length_take] at h1 h2
    simp only [MAX_SIZE] at h1 h2
    rw [hvisit, h4]
    refine ⟨?_, List.suffix_append _ _⟩
    simp only [List.nil_append, List.length_append, htake, List.length_take, List.length_cons,
      List.length_nil]
    omega


/-! ## Facts about the descriptor loop and the runs of SpawnProcess -/

theorem mem_close_openFds (p : Process) (fd x : Int) :
    x ∈ (p.close fd).openFds ↔ x ∈ p.openFds ∧ x ≠ fd := by
  simp [Process.close]

/-- The descriptors left open by the loop: those that were open and are the
preserved one, or lie outside the range the loop runs over. -/
theorem closeLoop_openFds (keep : Int) (n : Nat) :
    ∀ (start : Int) (p : Process) (x : Int),
      x ∈ (closeLoop keep n start p).openFds ↔
        x ∈ p.openFds ∧ (x = keep ∨ x < start ∨ start + n ≤ x) := by
  induction n with
  | zero =>
    intro start p x
    simp only [closeLoop, Nat.cast_zero, add_zero]
    constructor
    · intro h
      exact ⟨h, by omega⟩
    · exact fun h => h.1
  | succ n ih =>
    intro start p x
    simp only [closeLoop]
    rw [ih]
    by_cases hk : start = keep
    · simp only [hk, ne_eq, not_true_eq_false, if_false, Nat.cast_succ]
      constructor
      · rintro ⟨h1, h2⟩
        exact ⟨h1, by omega⟩
      · rintro ⟨h1, h2⟩
        exact ⟨h1, by omega⟩
    · simp only [ne_eq, hk, not_false_eq_true, if_true, mem_close_openFds, Nat.cast_succ]
      constructor
      · rintro ⟨⟨h1, h3⟩, h2⟩
        exact ⟨h1, by omega⟩
      · rintro ⟨h1, h2⟩
        exact ⟨⟨h1, by omega⟩, by omega⟩

/-- The calls the loop makes: closes of descriptors other than the preserved
one, and nothing else. -/
theorem closeLoop_trace (keep : Int) (n : Nat) :
    ∀ (start : Int) (p : Process),
      ∃ fds : List Int, (closeLoop keep n start p).trace = p.trace ++ fds.map Event.close ∧
        ∀ fd ∈ fds, fd ≠ keep := by
  induction n with
  | zero =>
    intro start p
    exact ⟨[], by simp [closeLoop], by simp⟩
  | succ n ih =>
    intro start p
    simp only [closeLoop]
    by_cases hk : start = keep
    · simp only [hk, ne_eq, not_true_eq_false, if_false]
      exact ih _ _
    · simp only [ne_eq, hk, not_false_eq_true, if_true]
      obtain ⟨fds, h1, h2⟩ := ih (start + 1) (p.close start)
      refine ⟨start :: fds, ?_, ?_⟩
      · rw [h1]
        simp [Process.close]
      · intro fd hfd
        rcases List.mem_cons.mp hfd with h | h
        · rw [h]; exact hk
        · exact h2 fd h

/-- The descriptors open after the loop of lines 88-92. -/
theorem sanitize_openFds (keep maxFd : Int) (p : Process) (x : Int) :
    x ∈ (sanitize keep maxFd p).openFds ↔
      x ∈ p.openFds ∧ (x = keep ∨ x < 3 ∨ maxFd ≤ x) := by
  unfold sanitize
  rw [closeLoop_openFds]
  constructor
  · rintro ⟨h1, h2⟩
    exact ⟨h1, by omega⟩
  · rintro ⟨h1, h2⟩
    exact ⟨h1, by omega⟩

theorem SpawnProcess_socketpair_fails (os : Os) (pid : Int) (f : Int → CallbackResult)
    (errno : Int) (hsp : os.socketpair = .error errno) :
    SpawnProcess os pid f = ⟨Outcome.threw errno, pid, ⟨os.openFds, []⟩⟩ := by
  simp only [SpawnProcess, hsp]

theorem SpawnProcess_close_fails (os : Os) (pid : Int) (f : Int → CallbackResult)
    (fds0 fds1 errno : Int) (hsp : os.socketpair = .ok (fds0, fds1))
    (hclose : os.close = some errno) :
    SpawnProcess os pid f = ⟨Outcome.threw errno, os.fork,
      ⟨fds0 :: fds1 :: os.openFds, [Event.close (if os.fork ≠ 0 then fds0 else fds1)]⟩⟩ := by
  simp only [SpawnProcess, hsp, hclose]

theorem SpawnProcess_not_child (os : Os) (pid : Int) (f : Int → CallbackResult)
    (fds0 fds1 : Int) (hsp : os.socketpair = .ok (fds0, fds1))
    (hclose : os.close = none) (hfork : os.fork ≠ 0) :
    SpawnProcess os pid f = ⟨Outcome.returned fds1, os.fork,
      Process.close ⟨fds0 :: fds1 :: os.openFds, []⟩ fds0⟩ := by
  simp only [SpawnProcess, hsp, hclose, hfork, ne_eq, not_false_eq_true, if_true, if_false]

/-- The child, when the callback throws. -/
theorem SpawnProcess_child_callback_throws (os : Os) (pid : Int) (f : Int → CallbackResult)
    (fds0 fds1 : Int) (hsp : os.socketpair = .ok (fds0, fds1))
    (hclose : os.close = none) (hfork : os.fork = 0) (hcb : f fds0 = CallbackResult.threw) :
    SpawnProcess os pid f = ⟨Outcome.propagated, 0,
      ⟨(childBeforeCallback os fds0 fds1).openFds,
        (childBeforeCallback os fds0 fds1).trace ++ [Event.callback fds0]⟩⟩ := by
  simp [SpawnProcess, hsp, hclose, hfork, hcb, childBeforeCallback]

/-- The child, when the callback returns an empty argument vector. -/
theorem SpawnProcess_child_no_args (os : Os) (pid : Int) (f : Int → CallbackResult)
    (fds0 fds1 : Int) (hsp : os.socketpair = .ok (fds0, fds1))
    (hclose : os.close = none) (hfork : os.fork = 0)
    (hcb : f fds0 = CallbackResult.returned []) :
    SpawnProcess os pid f = ⟨Outcome.undefined, 0,
      ⟨(childBeforeCallback os fds0 fds1).openFds,
        (childBeforeCallback os fds0 fds1).trace ++
          [Event.callback fds0, Event.execvp []]⟩⟩ := by
  simp [SpawnProcess, hsp, hclose, hfork, hcb, ExecProcess, childBeforeCallback]

/-- The child, when the callback returns an argument vector that is not
empty. -/
theorem SpawnProcess_child (os : Os) (pid : Int) (f : Int → CallbackResult)
    (fds0 fds1 : Int) (args : List String) (hsp : os.socketpair = .ok (fds0, fds1))
    (hclose : os.close = none) (hfork : os.fork = 0)
    (hcb : f fds0 = CallbackResult.returned args) (hargs : args ≠ []) :
    SpawnProcess os pid f =
      match os.execvp with
      | .replaced => ⟨Outcome.replaced args, 0,
          ⟨(childBeforeCallback os fds0 fds1).openFds,
            (childBeforeCallback os fds0 fds1).trace ++
              [Event.callback fds0, Event.execvp args]⟩⟩
      | .failed _ => ⟨Outcome.exited 1, 0,
          ⟨(childBeforeCallback os fds0 fds1).openFds,
            (childBeforeCallback os fds0 fds1).trace ++
              [Event.callback fds0, Event.execvp args, Event.perror]⟩⟩ := by
  cases args with
  | nil => exact absurd rfl hargs
  | cons a rest =>
    cases hex : os.execvp <;>
      simp [SpawnProcess, hsp, hclose, hfork, hcb, ExecProcess, hex, ExecvpResult.returnValue,
        childBeforeCallback]

/-- The descriptors open at the end of a run in the child are those open when
the callback is invoked, whatever the callback and `execvp` do. -/
theorem SpawnProcess_child_openFds (os : Os) (pid : Int) (f : Int → CallbackResult)
    (fds0 fds1 : Int) (hsp : os.socketpair = .ok (fds0, fds1))
    (hclose : os.close = none) (hfork : os.fork = 0) :
    (SpawnProcess os pid f).process.openFds = (childBeforeCallback os fds0 fds1).openFds := by
  cases hcb : f fds0 with
  | threw => rw [SpawnProcess_child_callback_throws os pid f fds0 fds1 hsp hclose hfork hcb]
  | returned args =>
    cases args with
    | nil => rw [SpawnProcess_child_no_args os pid f fds0 fds1 hsp hclose hfork hcb]
    | cons a rest =>
      rw [SpawnProcess_child os pid f fds0 fds1 (a :: rest) hsp hclose hfork hcb (by simp)]
      cases os.execvp <;> rfl

theorem childBeforeCallback_trace (os : Os) (fds0 fds1 : Int) :
    ∃ fds : List Int,
      (childBeforeCallback os fds0 fds1).trace = Event.close fds1 :: fds.map Event.close ∧
        ∀ fd ∈ fds, fd ≠ fds0 := by
  obtain ⟨fds, h1, h2⟩ := closeLoop_trace fds0 (toInt (MaxFd os.getrlimit) - 3).toNat 3
    (Process.close ⟨fds0 :: fds1 :: os.openFds, []⟩ fds1)
  exact ⟨fds, by simpa [childBeforeCallback, sanitize, Process.close] using h1, h2⟩

theorem childBeforeCallback_openFds (os : Os) (fds0 fds1 x : Int) :
    x ∈ (childBeforeCallback os fds0 fds1).openFds ↔
      (x = fds0 ∨ x ∈ os.openFds) ∧ x ≠ fds1 ∧
        (x = fds0 ∨ x < 3 ∨ toInt (MaxFd os.getrlimit) ≤ x) := by
  unfold childBeforeCallback
  rw [sanitize_openFds, mem_close_openFds]
  simp only [List.mem_cons]
  constructor
  · rintro ⟨⟨h1, h2⟩, h3⟩
    refine ⟨?_, h2, h3⟩
    rcases h1 with h | h | h
    · exact Or.inl h
    · exact absurd h h2
    · exact Or.inr h
  · rintro ⟨h1, h2, h3⟩
    refine ⟨⟨?_, h2⟩, h3⟩
    rcases h1 with h | h
    · exact Or.inl h
    · exact Or.inr (Or.inr h)

/-! ## The properties of LogEscape -/

/-- C4: the one-byte input consisting of a backslash (0x5c) is returned as one
backslash, not two: the test of line 57 compares the character literal `'c'`
with a backslash, which is never true, so the byte is handled as any other
printable character. -/
theorem LogEscape_backslash (charSigned : Bool) :
    LogEscape charSigned [[0x5c]] = ['\\'] ∧
      LogEscape charSigned [[0x5c]] ≠ ['\\', '\\'] := by
  cases charSigned <;> decide

/-- C5: where plain `char` is signed, the one-byte input 0x80 is returned as a
backslash followed by `ff`, while the two hexadecimal digits of its value are
`80`. -/
theorem LogEscape_byte_0x80_signed :
    LogEscape true [[0x80]] = ['\\', 'f', 'f'] ∧
      ['\\', Nat.digitChar (0x80 / 16), Nat.digitChar (0x80 % 16)] = ['\\', '8', '0'] := by
  decide

/-- Where plain `char` is unsigned, every byte outside printable ASCII, alone
in the input, is returned as a backslash and its two hexadecimal digits. -/
theorem LogEscape_one_byte_unsigned (b : Byte) (h : b.val < 0x20 ∨ 0x7e < b.val) :
    LogEscape false [[b]] = ['\\', Nat.digitChar (b.val / 16), Nat.digitChar (b.val % 16)] := by
  have hr := rendered_unsigned b h
  simp [LogEscape, visit, pieceLoop, MAX_SIZE, hr]

/-- Where plain `char` is signed, the same holds for the bytes below 0x20 and
for 0x7f. -/
theorem LogEscape_one_byte_signed_low (b : Byte) (h : b.val < 0x20 ∨ b.val = 0x7f) :
    LogEscape true [[b]] = ['\\', Nat.digitChar (b.val / 16), Nat.digitChar (b.val % 16)] := by
  have hr := rendered_signed_low b h
  simp [LogEscape, visit, pieceLoop, MAX_SIZE, hr]

/-- Where plain `char` is signed, every byte from 0x80 up, alone in the input,
is returned as a backslash followed by `ff`. -/
theorem LogEscape_one_byte_signed_high (b : Byte) (h : 0x80 ≤ b.val) :
    LogEscape true [[b]] = ['\\', 'f', 'f'] := by
  have hr := rendered_signed_high b h
  simp [LogEscape, visit, pieceLoop, MAX_SIZE, hr]

/-- C6, as stated, fails: for one piece of 2000 null bytes the result has more
than 1003 characters. -/
theorem LogEscape_2000_null_bytes_exceeds_1003 :
    ¬ (LogEscape true [List.replicate 2000 (0 : Byte)]).length ≤ 1003 := by
  have h := (LogEscape_of_2000_not_printable true [List.replicate 2000 (0 : Byte)]
    (by
      intro b hb
      rw [List.flatten_cons, List.flatten_nil, List.append_nil] at hb
      rw [(List.mem_replicate.mp hb).2]
      decide)
    (by rw [List.flatten_cons, List.flatten_nil, List.append_nil, List.length_replicate])).1
  omega

/-- C6, amended: the result of LogEscape is either the whole escaped content,
which then has at most 1000 characters, with no marker, or the escaped content
up to and including the first byte that takes the length past 1000, which has
1001 to 1003 characters, followed by the marker `...`; so its length never
exceeds 1006.  For an input of 2000 bytes outside printable ASCII the result
has 1005 characters and ends in `...`. -/
theorem LogEscape_bounded (charSigned : Bool) (string : List (List Byte)) :
    (((escapeAll charSigned string.flatten).length ≤ 1000 ∧
        LogEscape charSigned string = escapeAll charSigned string.flatten) ∨
      (∃ k, k < string.flatten.length ∧
        (escapeAll charSigned (string.flatten.take k)).length ≤ 1000 ∧
        1000 < (escapeAll charSigned (string.flatten.take (k + 1))).length ∧
        (escapeAll charSigned (string.flatten.take (k + 1))).length ≤ 1003 ∧
        LogEscape charSigned string =
          escapeAll charSigned (string.flatten.take (k + 1)) ++ ['.', '.', '.'])) ∧
    (LogEscape charSigned string).length ≤ 1006 ∧
    ((∀ b ∈ string.flatten, b.val < 0x20 ∨ 0x7e < b.val) → string.flatten.length = 2000 →
      (LogEscape charSigned string).length = 1005 ∧
        ['.', '.', '.'] <:+ LogEscape charSigned string) := by
  have hvisit : LogEscape charSigned string = pieceLoop charSigned [] string.flatten :=
    visit_eq_pieceLoop charSigned string [] (by simp [MAX_SIZE])
  have hspec := pieceLoop_spec charSigned string.flatten [] (by simp [MAX_SIZE])
  simp only [List.nil_append, MAX_SIZE, ← hvisit] at hspec
  refine ⟨hspec, ?_, LogEscape_of_2000_not_printable charSigned string⟩
  rcases hspec with ⟨h1, h2⟩ | ⟨k, _, _, _, h3, h4⟩
  · rw [h2]; omega
  · rw [h4]
    simp only [List.length_append, List.length_cons, List.length_nil]
    omega

theorem LogEscape_bounded_witness :
    (LogEscape false [List.replicate 1200 (7 : Byte), List.replicate 800 (0x7f : Byte)]).length
        = 1005 ∧
      ['.', '.', '.'] <:+
        LogEscape false [List.replicate 1200 (7 : Byte), List.replicate 800 (0x7f : Byte)] :=
  (LogEscape_bounded false [List.replicate 1200 (7 : Byte), List.replicate 800 (0x7f : Byte)]).2.2
    (by
      intro b hb
      rw [List.flatten_cons, List.flatten_cons, List.flatten_nil, List.append_nil,
        List.mem_append] at hb
      rcases hb with h | h <;> rw [(List.mem_replicate.mp h).2] <;> decide)
    (by
      rw [List.flatten_cons, List.flatten_cons, List.flatten_nil, List.append_nil,
        List.length_append, List.length_replicate, List.length_replicate])

/-- C7: when every byte of every piece is printable ASCII and the pieces hold
at most 1000 bytes in all, LogEscape returns the bytes of the pieces, in order,
each as the character it encodes. -/
theorem LogEscape_printable_unchanged (charSigned : Bool) (string : List (List Byte))
    (hbytes : ∀ b ∈ string.flatten, 0x20 ≤ b.val ∧ b.val ≤ 0x7e)
    (hlen : string.flatten.length ≤ 1000) :
    LogEscape charSigned string = string.flatten.map (fun b => Char.ofNat b.val) := by
  have hvisit : LogEscape charSigned string = pieceLoop charSigned [] string.flatten :=
    visit_eq_pieceLoop charSigned string [] (by simp [MAX_SIZE])
  have hall := escapeAll_of_printable charSigned string.flatten hbytes
  rcases pieceLoop_spec charSigned string.flatten [] (by simp [MAX_SIZE]) with
    ⟨_, h2⟩ | ⟨k, _, _, h2, _, _⟩
  · rw [hvisit, h2, List.nil_append, hall]
  · exfalso
    rw [List.nil_append, escapeAll_of_printable charSigned _
      (fun b hb => hbytes b (List.mem_of_mem_take hb)), List.length_map, List.length_take] at h2
    simp only [MAX_SIZE] at h2
    omega

set_option maxRecDepth 100000 in
theorem LogEscape_printable_unchanged_witness :
    LogEscape true [[0x48, 0x69], [], [0x5c, 0x7e]] = ['H', 'i', '\\', '~'] :=
  LogEscape_printable_unchanged true [[0x48, 0x69], [], [0x5c, 0x7e]] (by decide) (by decide)

/-- C10: every character of the string returned by LogEscape is printable
ASCII, whatever the bytes and the pieces of the input. -/
theorem LogEscape_printable (charSigned : Bool) (string : List (List Byte)) :
    ∀ ch ∈ LogEscape charSigned string, printable ch :=
  visit_printable charSigned string [] (by simp)

theorem LogEscape_printable_witness :
    'f' ∈ LogEscape true [[0x0a, 0xff]] ∧ printable 'f' :=
  ⟨by decide, LogEscape_printable true [[0x0a, 0xff]] 'f' (by decide)⟩

/-! ## The properties of SpawnProcess and WaitProcess -/

/-- C1: when socketpair succeeds, `fork` returns -1 and the close succeeds,
SpawnProcess throws nothing: it sets `pid` to -1 and returns the second
descriptor of the pair to the caller, whatever the callback. -/
theorem SpawnProcess_fork_fails_returns (pid : Int) (fd_to_args : Int → CallbackResult) :
    forkFails.fork = -1 ∧
      (SpawnProcess forkFails pid fd_to_args).outcome = Outcome.returned 4 ∧
      (SpawnProcess forkFails pid fd_to_args).pid = -1 ∧
      (SpawnProcess forkFails pid fd_to_args).process.trace = [Event.close 3] := by
  refine ⟨rfl, ?_⟩
  rw [SpawnProcess_not_child forkFails pid fd_to_args 3 4 rfl rfl (by decide)]
  exact ⟨rfl, rfl, rfl⟩

/-- C2: in the child, with the soft limit at 1024 (highest possible descriptor
1023), first endpoint 3 and descriptors 5 and 1023 inherited: after the loop
descriptor 5 is closed and descriptor 1023 is still open. -/
theorem SpawnProcess_leaves_highest_fd_open (pid : Int) (fd_to_args : Int → CallbackResult) :
    MaxFd childWithHighFd.getrlimit = 1023 ∧
      (1023 : Int) ∈ (SpawnProcess childWithHighFd pid fd_to_args).process.openFds ∧
      (5 : Int) ∉ (SpawnProcess childWithHighFd pid fd_to_args).process.openFds := by
  have hmax : toInt (MaxFd childWithHighFd.getrlimit) = 1023 := by decide
  have hopen := SpawnProcess_child_openFds childWithHighFd pid fd_to_args 3 4 rfl rfl rfl
  refine ⟨by decide, ?_, ?_⟩
  · rw [hopen, childBeforeCallback_openFds, hmax]
    decide
  · rw [hopen, childBeforeCallback_openFds, hmax]
    decide

/-- The loop of lines 88-92 over any descriptor table: a descriptor from 3 up,
other than the preserved one, is open afterwards exactly when it was open and
is not below `maxFd`. -/
theorem sanitize_closes_below_maxFd (keep maxFd : Int) (p : Process) (x : Int)
    (h3 : 3 ≤ x) (hkeep : x ≠ keep) :
    x ∈ (sanitize keep maxFd p).openFds ↔ x ∈ p.openFds ∧ maxFd ≤ x := by
  rw [sanitize_openFds]
  constructor
  · rintro ⟨h1, h2⟩
    exact ⟨h1, by omega⟩
  · rintro ⟨h1, h2⟩
    exact ⟨h1, Or.inr (Or.inr h2)⟩

/-- C3, as stated, fails: in the child, when the close of the second endpoint
fails, a system error propagates to the caller of SpawnProcess. -/
theorem SpawnProcess_child_close_fails_throws :
    childCloseFails.fork = 0 ∧
      (SpawnProcess childCloseFails 0 (fun _ => CallbackResult.returned ["true"])).outcome
        = Outcome.threw 5 := by
  refine ⟨rfl, ?_⟩
  rw [SpawnProcess_close_fails childCloseFails 0 _ 3 4 5 rfl rfl]

/-- In the child, when the close succeeds and the callback throws, the
exception propagates to the caller of SpawnProcess. -/
theorem SpawnProcess_child_callback_throws_propagates :
    (SpawnProcess childExecFails 0 (fun _ => CallbackResult.threw)).outcome
      = Outcome.propagated := by
  rw [SpawnProcess_child_callback_throws childExecFails 0 _ 3 4 rfl rfl rfl rfl]

/-- In the child, when the close succeeds and the callback returns an empty
argument vector, `execvp` is called with a null file name: the child is neither
replaced by a new program nor ended by `_exit(1)`. -/
theorem SpawnProcess_child_no_args_undefined :
    (SpawnProcess childExecFails 0 (fun _ => CallbackResult.returned [])).outcome
      = Outcome.undefined := by
  rw [SpawnProcess_child_no_args childExecFails 0 _ 3 4 rfl rfl rfl rfl]

/-- C3, amended: on the child path (socketpair succeeded, `fork` returned 0),
when the close of the second endpoint succeeds and the callback returns an
argument vector that is not empty, the run ends with the image replaced by the
program of these arguments if `execvp` succeeds and in `_exit(1)` if `execvp`
fails, so control never comes back to the caller; when the close succeeds and
the callback throws, its exception propagates to the caller; when the close
fails, the run ends with a system error carrying its `errno` propagating to
the caller. -/
theorem SpawnProcess_child_outcome (os : Os) (pid : Int) (fd_to_args : Int → CallbackResult)
    (fds0 fds1 : Int) (hsp : os.socketpair = .ok (fds0, fds1)) (hfork : os.fork = 0) :
    (os.close = none → ∀ args, fd_to_args fds0 = CallbackResult.returned args → args ≠ [] →
      os.execvp = ExecvpResult.replaced →
      (SpawnProcess os pid fd_to_args).outcome = Outcome.replaced args) ∧
    (os.close = none → ∀ args, fd_to_args fds0 = CallbackResult.returned args → args ≠ [] →
      ∀ errno, os.execvp = ExecvpResult.failed errno →
      (SpawnProcess os pid fd_to_args).outcome = Outcome.exited 1) ∧
    (os.close = none → fd_to_args fds0 = CallbackResult.threw →
      (SpawnProcess os pid fd_to_args).outcome = Outcome.propagated) ∧
    (∀ errno, os.close = some errno →
      (SpawnProcess os pid fd_to_args).outcome = Outcome.threw errno) := by
  refine ⟨?_, ?_, ?_, ?_⟩
  · intro hclose args hcb hargs hex
    rw [SpawnProcess_child os pid fd_to_args fds0 fds1 args hsp hclose hfork hcb hargs, hex]
  · intro hclose args hcb hargs errno hex
    rw [SpawnProcess_child os pid fd_to_args fds0 fds1 args hsp hclose hfork hcb hargs, hex]
  · intro hclose hcb
    rw [SpawnProcess_child_callback_throws os pid fd_to_args fds0 fds1 hsp hclose hfork hcb]
  · intro errno hclose
    rw [SpawnProcess_close_fails os pid fd_to_args fds0 fds1 errno hsp hclose]

theorem SpawnProcess_child_outcome_witness :
    childExecFails.socketpair = .ok (3, 4) ∧ childExecFails.fork = 0 ∧
      (SpawnProcess childExecFails 0 (fun _ => CallbackResult.returned ["true"])).outcome
        = Outcome.exited 1 ∧
      (SpawnProcess childWithHighFd 0 (fun _ => CallbackResult.returned ["true"])).outcome
        = Outcome.replaced ["true"] :=
  ⟨rfl, rfl,
    (SpawnProcess_child_outcome childExecFails 0 (fun _ => CallbackResult.returned ["true"])
      3 4 rfl rfl).2.1 rfl ["true"] rfl (by simp) 2 rfl,
    (SpawnProcess_child_outcome childWithHighFd 0 (fun _ => CallbackResult.returned ["true"])
      3 4 rfl rfl).1 rfl ["true"] rfl (by simp) rfl⟩

/-- C8: in a run of SpawnProcess in which socketpair succeeds, with two
different descriptors, and the close succeeds.  When `fork` does not return 0,
the only call made is the close of the first endpoint, `pid` is set to the
value `fork` returned, and the second endpoint is returned, still open.  When
`fork` returns 0, the calls made are the close of the second endpoint, closes
of descriptors other than the first endpoint, the callback with the first
endpoint and, when the callback returns an argument vector, `execvp` with it
(followed by `perror` if it fails); the first endpoint is open at the end and
the second is not. -/
theorem SpawnProcess_endpoints (os : Os) (pid : Int) (fd_to_args : Int → CallbackResult)
    (fds0 fds1 : Int) (hsp : os.socketpair = .ok (fds0, fds1)) (hne : fds0 ≠ fds1)
    (hclose : os.close = none) :
    (os.fork ≠ 0 →
      (SpawnProcess os pid fd_to_args).process.trace = [Event.close fds0] ∧
      (SpawnProcess os pid fd_to_args).pid = os.fork ∧
      (SpawnProcess os pid fd_to_args).outcome = Outcome.returned fds1 ∧
      fds1 ∈ (SpawnProcess os pid fd_to_args).process.openFds) ∧
    (os.fork = 0 →
      (∃ (fds : List Int) (rest : List Event),
        (SpawnProcess os pid fd_to_args).process.trace =
          Event.close fds1 :: fds.map Event.close ++ Event.callback fds0 :: rest ∧
        (∀ fd ∈ fds, fd ≠ fds0) ∧
        (∀ args, fd_to_args fds0 = CallbackResult.returned args →
          rest = [Event.execvp args] ∨ rest = [Event.execvp args, Event.perror]) ∧
        (fd_to_args fds0 = CallbackResult.threw → rest = [])) ∧
      fds0 ∈ (SpawnProcess os pid fd_to_args).process.openFds ∧
      fds1 ∉ (SpawnProcess os pid fd_to_args).process.openFds) := by
  constructor
  · intro hfork
    rw [SpawnProcess_not_child os pid fd_to_args fds0 fds1 hsp hclose hfork]
    refine ⟨by simp [Process.close], rfl, rfl, ?_⟩
    rw [mem_close_openFds]
    exact ⟨by simp, fun h => hne h.symm⟩
  · intro hfork
    obtain ⟨fds, htrace, hfds⟩ := childBeforeCallback_trace os fds0 fds1
    have hopen := SpawnProcess_child_openFds os pid fd_to_args fds0 fds1 hsp hclose hfork
    refine ⟨?_, ?_, ?_⟩
    · cases hcb : fd_to_args fds0 with
      | threw =>
        rw [SpawnProcess_child_callback_throws os pid fd_to_args fds0 fds1 hsp hclose hfork hcb]
        exact ⟨fds, [], by simp [htrace], hfds, fun args h => (by cases h), fun _ => rfl⟩
      | returned args =>
        cases args with
        | nil =>
          rw [SpawnProcess_child_no_args os pid fd_to_args fds0 fds1 hsp hclose hfork hcb]
          refine ⟨fds, [Event.execvp []], by simp [htrace], hfds, ?_, fun h => (by cases h)⟩
          intro args h
          cases h
          exact Or.inl rfl
        | cons a tail =>
          rw [SpawnProcess_child os pid fd_to_args fds0 fds1 (a :: tail) hsp hclose hfork hcb
            (by simp)]
          cases os.execvp with
          | replaced =>
            refine ⟨fds, [Event.execvp (a :: tail)], by simp [htrace], hfds, ?_,
              fun h => (by cases h)⟩
            intro args h
            cases h
            exact Or.inl rfl
          | failed errno =>
            refine ⟨fds, [Event.execvp (a :: tail), Event.perror], by simp [htrace], hfds, ?_,
              fun h => (by cases h)⟩
            intro args h
            cases h
            exact Or.inr rfl
    · rw [hopen, childBeforeCallback_openFds]
      exact ⟨Or.inl rfl, hne, Or.inl rfl⟩
    · rw [hopen, childBeforeCallback_openFds]
      exact fun h => h.2.1 rfl

theorem SpawnProcess_endpoints_witness :
    ((SpawnProcess parentRun 0 (fun _ => CallbackResult.returned ["true"])).process.trace
        = [Event.close 3] ∧
      (SpawnProcess parentRun 0 (fun _ => CallbackResult.returned ["true"])).pid = 4242 ∧
      (SpawnProcess parentRun 0 (fun _ => CallbackResult.returned ["true"])).outcome
        = Outcome.returned 4 ∧
      (4 : Int) ∈
        (SpawnProcess parentRun 0 (fun _ => CallbackResult.returned ["true"])).process.openFds) ∧
    ((3 : Int) ∈
        (SpawnProcess childExecFails 0 (fun _ => CallbackResult.returned ["true"])).process.openFds ∧
      (4 : Int) ∉
        (SpawnProcess childExecFails 0 (fun _ => CallbackResult.returned ["true"])).process.openFds) :=
  ⟨(SpawnProcess_endpoints parentRun 0 (fun _ => CallbackResult.returned ["true"]) 3 4 rfl
      (by decide) rfl).1 (by decide),
    ((SpawnProcess_endpoints childExecFails 0 (fun _ => CallbackResult.returned ["true"]) 3 4 rfl
      (by decide) rfl).2 rfl).2⟩

end mp
